import Mathlib

/-!
# certgen: a shallow embedding of `tools/certgen.c`

The program is a single `main` that parses its options, opens the key file and
the output file, decrypts the SM2 private key, builds an `X509_NAME`, assembles
a self-issued certificate with a fixed extension profile, signs it and writes
it out in PEM.

Everything `main` calls lives outside the file (libc and the GmSSL library).
The embedding records every such call, with its arguments, as an `Event` in a
trace; what a call returns is read from an environment `Env`.  `main` maps an
environment and an argument list to an exit status and a trace.
-/

namespace Certgen

/-! ## Data -/

/-- The attribute types for which the program calls an `x509_name_set_*`. -/
inductive NameAttr
  | country
  | state_or_province
  | organization
  | organizational_unit
  | common_name
  deriving DecidableEq, Repr

/-- An `X509_NAME`, seen as the attributes that were set on it, oldest first. -/
abbrev X509_NAME := List (NameAttr × String)

/-- An `SM2_KEY`, seen as the bytes of the key buffer. -/
abbrev SM2_KEY := List Nat

/-- The object identifiers the program names. -/
inductive OID
  | OID_kp_serverAuth
  | OID_kp_clientAuth
  | OID_kp_codeSigning
  | OID_kp_emailProtection
  | OID_kp_timeStamping
  | OID_kp_OCSPSigning
  | OID_sm2sign_with_sm3
  deriving DecidableEq, Repr

/-- The certificate versions the program names. -/
inductive X509_version
  | X509_version_v3
  deriving DecidableEq, Repr

/-- The macro `ASN1_TRUE`. -/
def ASN1_TRUE : Bool := true

/-- The macro `ASN1_FALSE`. -/
def ASN1_FALSE : Bool := false

/-- The stream behind `outfp`: `stdout`, or the file opened from `-out`. -/
inductive OutStream
  | stdout
  | file (path : String)
  deriving DecidableEq, Repr

/-- One call that `main` makes to the outside, with its arguments. -/
inductive Event
  /-- The call `print_usage(prog)`. -/
  | print_usage
  /-- The line `illegal option` written to `stderr`. -/
  | stderr_illegal_option (arg : String)
  /-- The line `'-pass' option required` written to `stderr` (WIN32 only). -/
  | stderr_pass_required
  /-- The line `commands should not be used together` written to `stderr`. -/
  | stderr_commands
  /-- The call `error_print()`. -/
  | error_print
  /-- The call `fopen(path, mode)`. -/
  | fopen (path : String) (mode : String)
  /-- The call `getpass("Encryption Password : ")`. -/
  | getpass
  /-- The call `sm2_enced_private_key_info_from_pem(&sm2_key, pass, keyfp)`. -/
  | sm2_enced_private_key_info_from_pem (pass : Option String) (keyfile : String)
  /-- The call `rand_bytes(serial, len)`. -/
  | rand_bytes (len : Nat)
  /-- One of the five calls `x509_name_set_*(&name, value)`. -/
  | x509_name_set (attr : NameAttr) (value : String)
  /-- The call `time(&not_before)`. -/
  | time
  | x509_certificate_set_version (v : X509_version)
  | x509_certificate_set_serial_number (serial : List Nat) (len : Nat)
  | x509_certificate_set_signature_algor (oid : OID)
  | x509_certificate_set_issuer (name : X509_NAME)
  | x509_certificate_set_subject (name : X509_NAME)
  | x509_certificate_set_validity (not_before : Int) (days : Int)
  | x509_certificate_set_subject_public_key_info_sm2 (key : SM2_KEY)
  | x509_certificate_set_issuer_unique_id_from_public_key (key : SM2_KEY)
  | x509_certificate_set_subject_unique_id_from_public_key (key : SM2_KEY)
  | x509_certificate_set_basic_constraints (critical : Bool) (ca : Bool) (path_len : Int)
  | x509_certificate_set_ext_key_usage (critical : Bool) (kp : List OID) (count : Nat)
  | x509_certificate_generate_subject_key_identifier (critical : Bool)
  | x509_certificate_set_inhibit_any_policy (critical : Bool) (skip_certs : Int)
  | x509_certificate_set_policy_constraints (critical : Bool)
      (require_explicit_policy : Int) (inhibit_policy_mapping : Int)
  | x509_certificate_sign_sm2 (key : SM2_KEY)
  | x509_certificate_to_pem (out : OutStream)
  deriving DecidableEq, Repr

/-- What the outside answers.  `ret` is the `int` a call returns (the library
returns 1 for success); the other fields are the data a call hands back. -/
structure Env where
  /-- Whether the program was built with `WIN32` defined. -/
  win32 : Bool
  /-- The libc function `atoi`. -/
  atoi : String → Int
  /-- Whether `fopen(path, mode)` returns a stream (not `NULL`). -/
  fopen : String → String → Bool
  /-- What `getpass` returns (`none` for `NULL`). -/
  getpass : Option String
  /-- The contents of `sm2_key` after the key loader ran on this passphrase and key file. -/
  sm2_key : Option String → String → SM2_KEY
  /-- The contents of `serial` after `rand_bytes`. -/
  serial : List Nat
  /-- The value `time` stores in `not_before`. -/
  time : Int
  /-- The value a call returns. -/
  ret : Event → Int

/-- The local variables of `main` that the option loop assigns. -/
structure Opts where
  country : Option String := none
  state : Option String := none
  org : Option String := none
  org_unit : Option String := none
  common_name : Option String := none
  keyfile : Option String := none
  days : Int := 0
  outfile : Option String := none
  pass : Option String := none
  deriving DecidableEq, Repr

/-- How the option loop ends. -/
inductive Parsed
  /-- The loop ran out of arguments. -/
  | done (o : Opts)
  /-- The loop met `-help`. -/
  | help
  /-- The loop met an argument that is no option. -/
  | illegal (arg : String)
  /-- An option was the last argument: `goto bad`. -/
  | bad
  deriving DecidableEq, Repr

/-- What a run leaves behind: the value `main` returns and the calls it made, oldest first. -/
structure Outcome where
  status : Int
  trace : List Event
  deriving DecidableEq, Repr

/-! ## The program -/

/-- The table `kp` of `main`. -/
def kp : List OID :=
  [OID.OID_kp_serverAuth, OID.OID_kp_clientAuth, OID.OID_kp_codeSigning,
   OID.OID_kp_emailProtection, OID.OID_kp_timeStamping, OID.OID_kp_OCSPSigning]

/-- The loop `while (argc > 0)` of `main`, over the arguments after `argv[0]`. -/
def parseArgs (env : Env) : List String → Opts → Parsed
  | [], o => Parsed.done o
  | a :: rest, o =>
    if a = "-help" then Parsed.help
    else if a = "-CN" then
      match rest with
      | [] => Parsed.bad
      | v :: rest2 => parseArgs env rest2 { o with common_name := some v }
    else if a = "-O" then
      match rest with
      | [] => Parsed.bad
      | v :: rest2 => parseArgs env rest2 { o with org := some v }
    else if a = "-OU" then
      match rest with
      | [] => Parsed.bad
      | v :: rest2 => parseArgs env rest2 { o with org_unit := some v }
    else if a = "-C" then
      match rest with
      | [] => Parsed.bad
      | v :: rest2 => parseArgs env rest2 { o with country := some v }
    else if a = "-ST" then
      match rest with
      | [] => Parsed.bad
      | v :: rest2 => parseArgs env rest2 { o with state := some v }
    else if a = "-key" then
      match rest with
      | [] => Parsed.bad
      | v :: rest2 => parseArgs env rest2 { o with keyfile := some v }
    else if a = "-days" then
      match rest with
      | [] => Parsed.bad
      | v :: rest2 => parseArgs env rest2 { o with days := env.atoi v }
    else if a = "-pass" then
      match rest with
      | [] => Parsed.bad
      | v :: rest2 => parseArgs env rest2 { o with pass := some v }
    else if a = "-out" then
      match rest with
      | [] => Parsed.bad
      | v :: rest2 => parseArgs env rest2 { o with outfile := some v }
    else Parsed.illegal a

/-- The calls of lines 238-265: the certificate is filled in, signed and
written.  No return value is looked at. -/
def assemble (env : Env) (o : Opts) (name : X509_NAME) (key : SM2_KEY)
    (outfp : OutStream) : List Event :=
  [ Event.x509_certificate_set_version X509_version.X509_version_v3,
    Event.x509_certificate_set_serial_number env.serial 12,
    Event.x509_certificate_set_signature_algor OID.OID_sm2sign_with_sm3,
    Event.x509_certificate_set_issuer name,
    Event.x509_certificate_set_subject name,
    Event.x509_certificate_set_validity env.time o.days,
    Event.x509_certificate_set_subject_public_key_info_sm2 key,
    Event.x509_certificate_set_issuer_unique_id_from_public_key key,
    Event.x509_certificate_set_subject_unique_id_from_public_key key,
    Event.x509_certificate_set_basic_constraints ASN1_TRUE ASN1_TRUE 6,
    Event.x509_certificate_set_ext_key_usage ASN1_TRUE kp kp.length,
    Event.x509_certificate_generate_subject_key_identifier ASN1_TRUE,
    Event.x509_certificate_set_inhibit_any_policy ASN1_TRUE 20,
    Event.x509_certificate_set_policy_constraints ASN1_FALSE 5 5,
    Event.x509_certificate_sign_sm2 key,
    Event.x509_certificate_to_pem outfp ]

/-- One block `if (value) { if (x509_name_set_*(&name, value) != 1) { error_print(); goto end; } }`
followed by the rest of the program `k`.  A `NULL` value skips the call; a
call that does not return 1 ends the run with `ret` still -1.  The name is
followed as the list of the attributes handed to the setters that returned 1. -/
def nameStep (env : Env) (attr : NameAttr) (value : Option String)
    (k : X509_NAME → List Event → Outcome) (name : X509_NAME) (tr : List Event) : Outcome :=
  match value with
  | none => k name tr
  | some v =>
    if env.ret (Event.x509_name_set attr v) ≠ 1 then
      ⟨-1, tr ++ [Event.x509_name_set attr v, Event.error_print]⟩
    else k (name ++ [(attr, v)]) (tr ++ [Event.x509_name_set attr v])

/-- Lines 225-267: the common name is required; with it set, the time is
read, the certificate is assembled, signed and written, and `ret` becomes 0. -/
def finish (env : Env) (o : Opts) (key : SM2_KEY) (outfp : OutStream)
    (name : X509_NAME) (tr : List Event) : Outcome :=
  match o.common_name with
  | none => ⟨-1, tr ++ [Event.error_print]⟩
  | some cn =>
    if env.ret (Event.x509_name_set NameAttr.common_name cn) ≠ 1 then
      ⟨-1, tr ++ [Event.x509_name_set NameAttr.common_name cn, Event.error_print]⟩
    else
      ⟨0, tr ++ [Event.x509_name_set NameAttr.common_name cn, Event.time]
            ++ assemble env o (name ++ [(NameAttr.common_name, cn)]) key outfp⟩

/-- Lines 193-267: the serial is drawn (return value not looked at), the name
is zeroed and built, then `finish`. -/
def issue (env : Env) (o : Opts) (key : SM2_KEY) (outfp : OutStream)
    (tr : List Event) : Outcome :=
  nameStep env NameAttr.country o.country
    (nameStep env NameAttr.state_or_province o.state
      (nameStep env NameAttr.organization o.org
        (nameStep env NameAttr.organizational_unit o.org_unit
          (finish env o key outfp))))
    [] (tr ++ [Event.rand_bytes 12])

/-- Lines 187-190: the private key is decrypted from the key file. -/
def loadKey (env : Env) (o : Opts) (keyfile : String) (pass : Option String)
    (outfp : OutStream) (tr : List Event) : Outcome :=
  if env.ret (Event.sm2_enced_private_key_info_from_pem pass keyfile) ≠ 1 then
    ⟨-1, tr ++ [Event.sm2_enced_private_key_info_from_pem pass keyfile, Event.error_print]⟩
  else
    issue env o (env.sm2_key pass keyfile) outfp
      (tr ++ [Event.sm2_enced_private_key_info_from_pem pass keyfile])

/-- Lines 180-185: the output file, when one is named, is opened for writing. -/
def openOut (env : Env) (o : Opts) (keyfile : String) (pass : Option String)
    (tr : List Event) : Outcome :=
  match o.outfile with
  | none => loadKey env o keyfile pass OutStream.stdout tr
  | some outfile =>
    if env.fopen outfile "wb" then
      loadKey env o keyfile pass (OutStream.file outfile) (tr ++ [Event.fopen outfile "wb"])
    else ⟨-1, tr ++ [Event.fopen outfile "wb", Event.error_print]⟩

/-- Lines 172-178: without `-pass` the passphrase is asked for (or, under
`WIN32`, a message is printed and `pass` stays `NULL`). -/
def askPass (env : Env) (o : Opts) (keyfile : String) (tr : List Event) : Outcome :=
  match o.pass with
  | some p => openOut env o keyfile (some p) tr
  | none =>
    if env.win32 then openOut env o keyfile none (tr ++ [Event.stderr_pass_required])
    else openOut env o keyfile env.getpass (tr ++ [Event.getpass])

/-- Lines 162-170 and on: `days` and `keyfile` are checked, the key file is opened. -/
def afterParse (env : Env) (o : Opts) : Outcome :=
  if o.days ≤ 0 then ⟨-1, [Event.error_print, Event.stderr_commands]⟩
  else
    match o.keyfile with
    | none => ⟨-1, [Event.error_print, Event.stderr_commands]⟩
    | some keyfile =>
      if env.fopen keyfile "r" then askPass env o keyfile [Event.fopen keyfile "r"]
      else ⟨-1, [Event.fopen keyfile "r", Event.error_print, Event.stderr_commands]⟩

/-- The function `main`, on the arguments after `argv[0]`. -/
def main (env : Env) (args : List String) : Outcome :=
  match parseArgs env args {} with
  | Parsed.help => ⟨0, [Event.print_usage]⟩
  | Parsed.illegal a => ⟨0, [Event.stderr_illegal_option a, Event.print_usage]⟩
  | Parsed.bad => ⟨-1, [Event.stderr_commands]⟩
  | Parsed.done o => afterParse env o

/-! ## Notions used to state the properties -/

/-- The attribute list contributed by one optional value. -/
def optAttr (attr : NameAttr) (value : Option String) : X509_NAME :=
  match value with
  | none => []
  | some v => [(attr, v)]

/-- The attributes supplied on the command line, in the order country,
state-or-province, organization, organizational-unit, common-name. -/
def nameOf (o : Opts) : X509_NAME :=
  optAttr NameAttr.country o.country ++ (optAttr NameAttr.state_or_province o.state ++
    (optAttr NameAttr.organization o.org ++
      (optAttr NameAttr.organizational_unit o.org_unit ++
        optAttr NameAttr.common_name o.common_name)))

/-- The setter calls that add the attributes of a name, in order. -/
def nameEvents (n : X509_NAME) : List Event :=
  n.map (fun av => Event.x509_name_set av.1 av.2)

/-- The passphrase handed to the key loader. -/
def thePass (env : Env) (o : Opts) : Option String :=
  match o.pass with
  | some p => some p
  | none => if env.win32 then none else env.getpass

/-- The calls made to obtain the passphrase. -/
def passEvents (env : Env) (o : Opts) : List Event :=
  match o.pass with
  | some _ => []
  | none => if env.win32 then [Event.stderr_pass_required] else [Event.getpass]

/-- The stream the certificate goes to. -/
def outStream (o : Opts) : OutStream :=
  match o.outfile with
  | none => OutStream.stdout
  | some f => OutStream.file f

/-- The call that opens the output file, if one is named. -/
def outEvents (o : Opts) : List Event :=
  match o.outfile with
  | none => []
  | some f => [Event.fopen f "wb"]

/-- The calls made before the key loader when every file opens. -/
def preamble (env : Env) (o : Opts) (keyfile : String) : List Event :=
  Event.fopen keyfile "r" :: (passEvents env o ++ outEvents o)

/-- The decryption call of a run. -/
def decryptEvent (env : Env) (o : Opts) (keyfile : String) : Event :=
  Event.sm2_enced_private_key_info_from_pem (thePass env o) keyfile

/-- The extension calls among the calls of a trace. -/
def isExtension : Event → Bool
  | Event.x509_certificate_set_basic_constraints _ _ _ => true
  | Event.x509_certificate_set_ext_key_usage _ _ _ => true
  | Event.x509_certificate_generate_subject_key_identifier _ => true
  | Event.x509_certificate_set_inhibit_any_policy _ _ => true
  | Event.x509_certificate_set_policy_constraints _ _ _ => true
  | _ => false

/-- The calls that belong to the certificate: its setters, signing, writing. -/
def isCertCall : Event → Bool
  | Event.x509_certificate_set_version _ => true
  | Event.x509_certificate_set_serial_number _ _ => true
  | Event.x509_certificate_set_signature_algor _ => true
  | Event.x509_certificate_set_issuer _ => true
  | Event.x509_certificate_set_subject _ => true
  | Event.x509_certificate_set_validity _ _ => true
  | Event.x509_certificate_set_subject_public_key_info_sm2 _ => true
  | Event.x509_certificate_set_issuer_unique_id_from_public_key _ => true
  | Event.x509_certificate_set_subject_unique_id_from_public_key _ => true
  | Event.x509_certificate_set_basic_constraints _ _ _ => true
  | Event.x509_certificate_set_ext_key_usage _ _ _ => true
  | Event.x509_certificate_generate_subject_key_identifier _ => true
  | Event.x509_certificate_set_inhibit_any_policy _ _ => true
  | Event.x509_certificate_set_policy_constraints _ _ _ => true
  | Event.x509_certificate_sign_sm2 _ => true
  | Event.x509_certificate_to_pem _ => true
  | _ => false

/-- The calls that touch a file or the key: `fopen` and the key loader. -/
def touchesFile : Event → Bool
  | Event.fopen _ _ => true
  | Event.sm2_enced_private_key_info_from_pem _ _ => true
  | _ => false

/-- The calls to the key loader. -/
def isDecrypt : Event → Bool
  | Event.sm2_enced_private_key_info_from_pem _ _ => true
  | _ => false

/-- The calls `x509_certificate_set_validity`. -/
def isValidity : Event → Bool
  | Event.x509_certificate_set_validity _ _ => true
  | _ => false

/-- The calls `x509_name_set_*`. -/
def isNameSet : Event → Bool
  | Event.x509_name_set _ _ => true
  | _ => false

/-- The calls that set the issuer or the subject name. -/
def isIssuerOrSubject : Event → Bool
  | Event.x509_certificate_set_issuer _ => true
  | Event.x509_certificate_set_subject _ => true
  | _ => false

/-- The calls that set a unique identifier. -/
def isUniqueId : Event → Bool
  | Event.x509_certificate_set_issuer_unique_id_from_public_key _ => true
  | Event.x509_certificate_set_subject_unique_id_from_public_key _ => true
  | _ => false

/-- The extension profile: the five extension calls, in order. -/
def extensionProfile : List Event :=
  [ Event.x509_certificate_set_basic_constraints true true 6,
    Event.x509_certificate_set_ext_key_usage true
      [OID.OID_kp_serverAuth, OID.OID_kp_clientAuth, OID.OID_kp_codeSigning,
       OID.OID_kp_emailProtection, OID.OID_kp_timeStamping, OID.OID_kp_OCSPSigning] 6,
    Event.x509_certificate_generate_subject_key_identifier true,
    Event.x509_certificate_set_inhibit_any_policy true 20,
    Event.x509_certificate_set_policy_constraints false 5 5 ]

/-- Modelled from the spec: the validity window that
`x509_certificate_set_validity(&cert, not_before, days)` fixes; the function
is not in `tools/certgen.c`.  The spec gives `notBefore` as the time passed in,
`notAfter = notBefore + days × 86400` seconds, and an error for `days ≤ 0`.
The result is the pair `(notBefore, notAfter)`. -/
def x509_validity (not_before : Int) (days : Int) : Option (Int × Int) :=
  if days ≤ 0 then none else some (not_before, not_before + days * 86400)

/-- The argument list that supplies the given flag/value pairs, in order. -/
def flatten : List (String × String) → List String
  | [] => []
  | p :: ps => p.1 :: p.2 :: flatten ps

/-- The flags that take a value. -/
def valueFlags : List String :=
  ["-CN", "-O", "-OU", "-C", "-ST", "-key", "-days", "-pass", "-out"]

/-- The assignment one flag/value pair makes in the option loop. -/
def setOpt (env : Env) (o : Opts) (p : String × String) : Opts :=
  if p.1 = "-CN" then { o with common_name := some p.2 }
  else if p.1 = "-O" then { o with org := some p.2 }
  else if p.1 = "-OU" then { o with org_unit := some p.2 }
  else if p.1 = "-C" then { o with country := some p.2 }
  else if p.1 = "-ST" then { o with state := some p.2 }
  else if p.1 = "-key" then { o with keyfile := some p.2 }
  else if p.1 = "-days" then { o with days := env.atoi p.2 }
  else if p.1 = "-pass" then { o with pass := some p.2 }
  else if p.1 = "-out" then { o with outfile := some p.2 }
  else o

/-- The value of the attribute flag among the pairs, as the name lists it. -/
def supplied (ps : List (String × String)) : X509_NAME :=
  optAttr NameAttr.country (ps.lookup "-C") ++ (optAttr NameAttr.state_or_province (ps.lookup "-ST") ++
    (optAttr NameAttr.organization (ps.lookup "-O") ++
      (optAttr NameAttr.organizational_unit (ps.lookup "-OU") ++
        optAttr NameAttr.common_name (ps.lookup "-CN"))))

/-- What a continuation of the name building does, when `rest` are the
attributes still to be added: it either stops with status -1 after a prefix of
the remaining setter calls, or adds them all and issues the certificate. -/
def Continues (env : Env) (o : Opts) (key : SM2_KEY) (outfp : OutStream)
    (k : X509_NAME → List Event → Outcome) (rest : X509_NAME) : Prop :=
  ∀ name tr,
    (∃ pre, pre <+: nameEvents rest ∧
        k name tr = ⟨-1, tr ++ (pre ++ [Event.error_print])⟩ ∧
        (o.common_name = none ∨ ∃ e ∈ nameEvents rest, env.ret e ≠ 1)) ∨
    (k name tr = ⟨0, tr ++ (nameEvents rest ++
        Event.time :: assemble env o (name ++ rest) key outfp)⟩ ∧
      o.common_name ≠ none ∧ ∀ e ∈ nameEvents rest, env.ret e = 1)

/-- The ways a run that got through the option loop can go. -/
inductive Shape (env : Env) (o : Opts) : Outcome → Prop
  /-- The check `days <= 0 || !keyfile` fires. -/
  | invalid : (o.days ≤ 0 ∨ o.keyfile = none) →
      Shape env o ⟨-1, [Event.error_print, Event.stderr_commands]⟩
  /-- The key file does not open. -/
  | keyOpenFails (k : String) : 0 < o.days → o.keyfile = some k → env.fopen k "r" = false →
      Shape env o ⟨-1, [Event.fopen k "r", Event.error_print, Event.stderr_commands]⟩
  /-- The output file does not open. -/
  | outOpenFails (k f : String) : 0 < o.days → o.keyfile = some k → env.fopen k "r" = true →
      o.outfile = some f → env.fopen f "wb" = false →
      Shape env o ⟨-1, Event.fopen k "r" ::
        (passEvents env o ++ [Event.fopen f "wb", Event.error_print])⟩
  /-- The key loader does not return 1. -/
  | decryptFails (k : String) : 0 < o.days → o.keyfile = some k → env.fopen k "r" = true →
      (∀ f, o.outfile = some f → env.fopen f "wb" = true) →
      env.ret (decryptEvent env o k) ≠ 1 →
      Shape env o ⟨-1, preamble env o k ++ [decryptEvent env o k, Event.error_print]⟩
  /-- The common name is missing or a name setter does not return 1. -/
  | nameFails (k : String) (pre : List Event) : 0 < o.days → o.keyfile = some k →
      env.fopen k "r" = true →
      (∀ f, o.outfile = some f → env.fopen f "wb" = true) →
      env.ret (decryptEvent env o k) = 1 →
      pre <+: nameEvents (nameOf o) →
      (o.common_name = none ∨ ∃ e ∈ nameEvents (nameOf o), env.ret e ≠ 1) →
      Shape env o ⟨-1, preamble env o k ++ decryptEvent env o k :: Event.rand_bytes 12 ::
        (pre ++ [Event.error_print])⟩
  /-- The certificate is assembled, signed and written. -/
  | issued (k : String) : 0 < o.days → o.keyfile = some k → env.fopen k "r" = true →
      (∀ f, o.outfile = some f → env.fopen f "wb" = true) →
      env.ret (decryptEvent env o k) = 1 →
      o.common_name ≠ none →
      (∀ e ∈ nameEvents (nameOf o), env.ret e = 1) →
      Shape env o ⟨0, preamble env o k ++ decryptEvent env o k :: Event.rand_bytes 12 ::
        (nameEvents (nameOf o) ++ Event.time ::
          assemble env o (nameOf o) (env.sm2_key (thePass env o) k) (outStream o))⟩

/-- The setter calls that are made out of the setter calls a name asks for:
each is made in turn, and the first that does not return 1 is the last. -/
def attempted (env : Env) : List Event → List Event
  | [] => []
  | e :: es => if env.ret e ≠ 1 then [e] else e :: attempted env es

/-- What a continuation of the name building adds to the name setter calls of
the trace, when `rest` are the attributes still to be added. -/
def AddsCalls (env : Env) (k : X509_NAME → List Event → Outcome) (rest : X509_NAME) : Prop :=
  ∀ name tr, (k name tr).trace.filter isNameSet =
    tr.filter isNameSet ++ attempted env (nameEvents rest)

/-! ## The C library function `atoi`, for concrete runs -/

/-- The characters `isspace` accepts in the C locale. -/
def isspace (c : Char) : Bool :=
  c = ' ' || c = '\t' || c = '\n' || c = '\x0b' || c = '\x0c' || c = '\r'

/-- The value of the leading decimal digits of `cs`, continuing from `acc`. -/
def digitsValue : List Char → Nat → Nat
  | [], acc => acc
  | c :: cs, acc => if c.isDigit then digitsValue cs (acc * 10 + (c.toNat - 48)) else acc

/-- A value brought into the range of a 64-bit `long`, as `strtol` does. -/
def clampLong (v : Int) : Int :=
  if v > 9223372036854775807 then 9223372036854775807
  else if v < -9223372036854775808 then -9223372036854775808 else v

/-- A `long` converted to a 32-bit `int`. -/
def toInt32 (v : Int) : Int :=
  (v + 2147483648) % 4294967296 - 2147483648

/-- The function `atoi` of glibc, `(int) strtol(s, NULL, 10)`: white space, an
optional sign, then decimal digits. -/
def atoi (s : String) : Int :=
  match s.toList.dropWhile isspace with
  | '-' :: cs => toInt32 (clampLong (- (digitsValue cs 0 : Int)))
  | '+' :: cs => toInt32 (clampLong (digitsValue cs 0 : Int))
  | cs => toInt32 (clampLong (digitsValue cs 0 : Int))

/-! ## Concrete environments and command lines -/

/-- An environment in which every file opens and every call returns 1. -/
def envOk : Env where
  win32 := false
  atoi := atoi
  fopen := fun _ _ => true
  getpass := some "test123"
  sm2_key := fun _ _ => [1, 2, 3]
  serial := [0, 1, 2, 3, 4, 5, 6, 7, 8, 9, 10, 11]
  time := 1600000000
  ret := fun _ => 1

/-- An environment in which the key loader fails and everything else succeeds. -/
def envBadPass : Env :=
  { envOk with ret := fun e => if isDecrypt e then -1 else 1 }

/-- An environment in which signing fails and everything else succeeds. -/
def envSignFails : Env :=
  { envOk with ret := fun e =>
      match e with
      | Event.x509_certificate_sign_sm2 _ => -1
      | _ => 1 }

/-- An environment in which `rand_bytes`, every certificate field setter and
every extension setter fail; signing and writing would succeed. -/
def envSettersFail : Env :=
  { envOk with ret := fun e =>
      match e with
      | Event.rand_bytes _ => -1
      | Event.x509_certificate_sign_sm2 _ => 1
      | Event.x509_certificate_to_pem _ => 1
      | e => if isCertCall e then -1 else 1 }

/-- A complete, valid command line writing to standard output. -/
def argsOk : List String :=
  ["-C", "CN", "-O", "GmSSL", "-CN", "Root CA", "-days", "3650", "-key", "rootkey.pem",
   "-pass", "test123"]

/-- The options `argsOk` parses to. -/
def optsOk : Opts :=
  { country := some "CN", org := some "GmSSL", common_name := some "Root CA",
    days := 3650, keyfile := some "rootkey.pem", pass := some "test123" }

/-- A valid command line except that `-CN` is not given. -/
def argsNoCN : List String :=
  ["-days", "3650", "-key", "rootkey.pem", "-pass", "test123"]

/-- A valid command line that names an output file. -/
def argsOut : List String :=
  ["-CN", "Root CA", "-days", "3650", "-key", "rootkey.pem", "-pass", "wrong",
   "-out", "cert.pem"]

/-- The flag/value pairs of a complete command line. -/
def pairsOk : List (String × String) :=
  [("-CN", "Root CA"), ("-O", "GmSSL"), ("-C", "CN"), ("-days", "3650"),
   ("-key", "rootkey.pem"), ("-pass", "test123")]

/-- The pairs of `pairsOk` in another order. -/
def pairsShuffled : List (String × String) :=
  [("-key", "rootkey.pem"), ("-C", "CN"), ("-pass", "test123"), ("-days", "3650"),
   ("-CN", "Root CA"), ("-O", "GmSSL")]

/-! ## The shape of a run -/

theorem nameEvents_append (a b : X509_NAME) :
    nameEvents (a ++ b) = nameEvents a ++ nameEvents b := by
  simp [nameEvents]

theorem mem_nameEvents {e : Event} {n : X509_NAME} (h : e ∈ nameEvents n) :
    ∃ a v, e = Event.x509_name_set a v := by
  simp only [nameEvents, List.mem_map] at h
  obtain ⟨av, _, rfl⟩ := h
  exact ⟨av.1, av.2, rfl⟩

theorem finish_continues (env : Env) (o : Opts) (key : SM2_KEY) (outfp : OutStream) :
    Continues env o key outfp (finish env o key outfp)
      (optAttr NameAttr.common_name o.common_name) := by
  intro name tr
  unfold finish
  cases hcn : o.common_name with
  | none =>
    left
    exact ⟨[], by simp [optAttr, nameEvents], by simp, Or.inl rfl⟩
  | some cn =>
    by_cases hr : env.ret (Event.x509_name_set NameAttr.common_name cn) = 1
    · right
      simp [optAttr, nameEvents, hr]
    · left
      refine ⟨[Event.x509_name_set NameAttr.common_name cn], ?_, ?_, Or.inr ?_⟩
      · simp [optAttr, nameEvents]
      · simp [hr]
      · exact ⟨_, by simp [optAttr, nameEvents], hr⟩

theorem nameStep_continues (env : Env) (o : Opts) (key : SM2_KEY) (outfp : OutStream)
    (attr : NameAttr) (value : Option String) (k : X509_NAME → List Event → Outcome)
    (rest : X509_NAME) (hk : Continues env o key outfp k rest) :
    Continues env o key outfp (nameStep env attr value k) (optAttr attr value ++ rest) := by
  intro name tr
  unfold nameStep
  cases value with
  | none => simpa [optAttr] using hk name tr
  | some v =>
    by_cases hr : env.ret (Event.x509_name_set attr v) = 1
    · rcases hk (name ++ [(attr, v)]) (tr ++ [Event.x509_name_set attr v]) with
        ⟨pre, hpre, heq, hwhy⟩ | ⟨heq, hcn, hall⟩
      · left
        refine ⟨Event.x509_name_set attr v :: pre, ?_, ?_, ?_⟩
        · simpa [optAttr, nameEvents] using hpre
        · simp [hr, heq]
        · rcases hwhy with h | ⟨e, he, hne⟩
          · exact Or.inl h
          · exact Or.inr ⟨e, by rw [nameEvents_append]; exact List.mem_append_right _ he, hne⟩
      · right
        refine ⟨?_, hcn, ?_⟩
        · simp [hr, heq, optAttr, nameEvents]
        · intro e he
          simp only [optAttr, nameEvents_append, List.mem_append] at he
          rcases he with he | he
          · simp [nameEvents] at he
            rw [he]; exact hr
          · exact hall e he
    · left
      refine ⟨[Event.x509_name_set attr v], ?_, ?_, Or.inr ?_⟩
      · simp [optAttr, nameEvents]
      · simp [hr]
      · exact ⟨_, by simp [optAttr, nameEvents], hr⟩

theorem issue_continues (env : Env) (o : Opts) (key : SM2_KEY) (outfp : OutStream)
    (tr : List Event) :
    (∃ pre, pre <+: nameEvents (nameOf o) ∧
        issue env o key outfp tr =
          ⟨-1, tr ++ Event.rand_bytes 12 :: (pre ++ [Event.error_print])⟩ ∧
        (o.common_name = none ∨ ∃ e ∈ nameEvents (nameOf o), env.ret e ≠ 1)) ∨
    (issue env o key outfp tr =
        ⟨0, tr ++ Event.rand_bytes 12 :: (nameEvents (nameOf o) ++
          Event.time :: assemble env o (nameOf o) key outfp)⟩ ∧
      o.common_name ≠ none ∧ ∀ e ∈ nameEvents (nameOf o), env.ret e = 1) := by
  have h := nameStep_continues env o key outfp NameAttr.country o.country _ _
    (nameStep_continues env o key outfp NameAttr.state_or_province o.state _ _
      (nameStep_continues env o key outfp NameAttr.organization o.org _ _
        (nameStep_continues env o key outfp NameAttr.organizational_unit o.org_unit _ _
          (finish_continues env o key outfp))))
  rcases h [] (tr ++ [Event.rand_bytes 12]) with ⟨pre, hpre, heq, hwhy⟩ | ⟨heq, hcn, hall⟩
  · left
    exact ⟨pre, hpre, by simpa [issue] using heq, hwhy⟩
  · right
    exact ⟨by simpa [issue, nameOf] using heq, hcn, hall⟩

theorem loadKey_shape (env : Env) (o : Opts) (k : String)
    (hd : 0 < o.days) (hk : o.keyfile = some k) (hf : env.fopen k "r" = true)
    (ho : ∀ f, o.outfile = some f → env.fopen f "wb" = true) :
    Shape env o (loadKey env o k (thePass env o) (outStream o) (preamble env o k)) := by
  unfold loadKey
  by_cases hr : env.ret (decryptEvent env o k) = 1
  · have hr2 : env.ret (Event.sm2_enced_private_key_info_from_pem (thePass env o) k) = 1 := hr
    simp only [hr2, ne_eq, not_true_eq_false, if_false]
    rcases issue_continues env o (env.sm2_key (thePass env o) k) (outStream o)
        (preamble env o k ++ [Event.sm2_enced_private_key_info_from_pem (thePass env o) k]) with
      ⟨pre, hpre, heq, hwhy⟩ | ⟨heq, hcn, hall⟩
    · rw [heq]
      have := Shape.nameFails k pre hd hk hf ho hr hpre hwhy
      simpa [decryptEvent] using this
    · rw [heq]
      have := Shape.issued k hd hk hf ho hr hcn hall
      simpa [decryptEvent] using this
  · have hr2 : env.ret (Event.sm2_enced_private_key_info_from_pem (thePass env o) k) ≠ 1 := hr
    simp only [hr2, ne_eq, not_false_eq_true, if_true]
    exact Shape.decryptFails k hd hk hf ho hr

theorem openOut_shape (env : Env) (o : Opts) (k : String)
    (hd : 0 < o.days) (hk : o.keyfile = some k) (hf : env.fopen k "r" = true) :
    Shape env o (openOut env o k (thePass env o) (Event.fopen k "r" :: passEvents env o)) := by
  unfold openOut
  cases hout : o.outfile with
  | none =>
    have := loadKey_shape env o k hd hk hf (by simp [hout])
    simpa [preamble, outEvents, outStream, hout] using this
  | some f =>
    by_cases hw : env.fopen f "wb" = true
    · have := loadKey_shape env o k hd hk hf (by rw [hout]; intro g hg; cases hg; exact hw)
      simpa [preamble, outEvents, outStream, hout, hw] using this
    · have hw2 : env.fopen f "wb" = false := by simpa using hw
      have := Shape.outOpenFails k f hd hk hf hout hw2
      simpa [hw2] using this

theorem afterParse_shape (env : Env) (o : Opts) : Shape env o (afterParse env o) := by
  unfold afterParse
  by_cases hd : o.days ≤ 0
  · simp only [hd, if_true]
    exact Shape.invalid (Or.inl hd)
  · simp only [hd, if_false]
    have hd2 : 0 < o.days := not_le.mp hd
    cases hk : o.keyfile with
    | none => exact Shape.invalid (Or.inr hk)
    | some k =>
      by_cases hf : env.fopen k "r" = true
      · simp only [hf, if_true]
        have := openOut_shape env o k hd2 hk hf
        unfold askPass
        cases hp : o.pass with
        | some p => simpa [thePass, passEvents, hp] using this
        | none =>
          by_cases hw : env.win32 = true
          · simpa [thePass, passEvents, hp, hw] using this
          · simpa [thePass, passEvents, hp, hw] using this
      · have hf2 : env.fopen k "r" = false := by simpa using hf
        simp only [hf2, Bool.false_eq_true, if_false]
        exact Shape.keyOpenFails k hd2 hk hf2

/-- Every run that gets through the option loop has one of the six shapes. -/
theorem main_shape (env : Env) (args : List String) (o : Opts)
    (h : parseArgs env args {} = Parsed.done o) : Shape env o (main env args) := by
  unfold main
  rw [h]
  exact afterParse_shape env o

/-! ## Facts about the pieces of a trace -/

theorem mem_passEvents {env : Env} {o : Opts} {e : Event} (h : e ∈ passEvents env o) :
    e = Event.stderr_pass_required ∨ e = Event.getpass := by
  unfold passEvents at h
  split at h
  · simp at h
  · split at h <;> simp at h <;> simp [h]

theorem mem_outEvents {o : Opts} {e : Event} (h : e ∈ outEvents o) :
    ∃ f, o.outfile = some f ∧ e = Event.fopen f "wb" := by
  unfold outEvents at h
  split at h
  · simp at h
  · rename_i f hf
    simp at h
    exact ⟨f, hf, h⟩

theorem mem_preamble {env : Env} {o : Opts} {k : String} {e : Event}
    (h : e ∈ preamble env o k) :
    e = Event.fopen k "r" ∨ e = Event.stderr_pass_required ∨ e = Event.getpass ∨
      ∃ f, o.outfile = some f ∧ e = Event.fopen f "wb" := by
  simp only [preamble, List.mem_cons, List.mem_append] at h
  rcases h with h | h | h
  · exact Or.inl h
  · rcases mem_passEvents h with h | h
    · exact Or.inr (Or.inl h)
    · exact Or.inr (Or.inr (Or.inl h))
  · exact Or.inr (Or.inr (Or.inr (mem_outEvents h)))

theorem preamble_not_cert {env : Env} {o : Opts} {k : String} {e : Event}
    (h : e ∈ preamble env o k) : isCertCall e = false ∧ isDecrypt e = false ∧
      isNameSet e = false := by
  rcases mem_preamble h with h | h | h | ⟨f, _, h⟩ <;> subst h <;> simp [isCertCall, isDecrypt, isNameSet]

theorem passEvents_plain {env : Env} {o : Opts} {e : Event} (h : e ∈ passEvents env o) :
    isCertCall e = false ∧ isDecrypt e = false ∧ touchesFile e = false := by
  rcases mem_passEvents h with h | h <;> subst h <;> simp [isCertCall, isDecrypt, touchesFile]

theorem nameEvents_plain {n : X509_NAME} {e : Event} (h : e ∈ nameEvents n) :
    isCertCall e = false ∧ isDecrypt e = false ∧ isNameSet e = true := by
  obtain ⟨a, v, rfl⟩ := mem_nameEvents h
  simp [isCertCall, isDecrypt, isNameSet]

theorem filter_eq_nil_of_all {p : Event → Bool} {l : List Event}
    (h : ∀ e ∈ l, p e = false) : l.filter p = [] := by
  rw [List.filter_eq_nil_iff]
  intro e he
  simp [h e he]

theorem filter_eq_self_of_all {p : Event → Bool} {l : List Event}
    (h : ∀ e ∈ l, p e = true) : l.filter p = l := by
  rw [List.filter_eq_self]
  exact h

/-- A run in which a certificate call is made got through the option loop,
passed every check, and made every call up to `x509_certificate_to_pem`. -/
theorem main_cert_call (env : Env) (args : List String)
    (h : ∃ e ∈ (main env args).trace, isCertCall e = true) :
    ∃ o k, parseArgs env args {} = Parsed.done o ∧ 0 < o.days ∧ o.keyfile = some k ∧
      o.common_name ≠ none ∧
      main env args =
        ⟨0, preamble env o k ++ decryptEvent env o k :: Event.rand_bytes 12 ::
          (nameEvents (nameOf o) ++ Event.time ::
            assemble env o (nameOf o) (env.sm2_key (thePass env o) k) (outStream o))⟩ := by
  cases hp : parseArgs env args {} with
  | help => simp [main, hp, isCertCall] at h
  | illegal a => simp [main, hp, isCertCall] at h
  | bad => simp [main, hp, isCertCall] at h
  | done o =>
    have hs := main_shape env args o hp
    obtain ⟨e, he, hc⟩ := h
    generalize main env args = out at hs he ⊢
    cases hs with
    | invalid h =>
      simp only [List.mem_cons, List.mem_singleton] at he
      rcases he with he | he | he
      · subst he; simp [isCertCall] at hc
      · subst he; simp [isCertCall] at hc
      · simp at he
    | keyOpenFails k hd hk hf =>
      simp only [List.mem_cons, List.mem_singleton] at he
      rcases he with he | he | he | he
      · subst he; simp [isCertCall] at hc
      · subst he; simp [isCertCall] at hc
      · subst he; simp [isCertCall] at hc
      · simp at he
    | outOpenFails k f hd hk hf ho hw =>
      simp only [List.mem_cons, List.mem_append, List.mem_singleton] at he
      rcases he with he | he | he | he
      · subst he; simp [isCertCall] at hc
      · rw [(passEvents_plain he).1] at hc; simp at hc
      · subst he; simp [isCertCall] at hc
      · rcases he with he | he
        · subst he; simp [isCertCall] at hc
        · simp at he
    | decryptFails k hd hk hf ho hr =>
      simp only [List.mem_cons, List.mem_append, List.mem_singleton] at he
      rcases he with he | he | he
      · rw [(preamble_not_cert he).1] at hc; simp at hc
      · subst he; simp [isCertCall, decryptEvent] at hc
      · rcases he with he | he
        · subst he; simp [isCertCall] at hc
        · simp at he
    | nameFails k pre hd hk hf ho hr hpre hwhy =>
      simp only [List.mem_cons, List.mem_append, List.mem_singleton] at he
      rcases he with he | he | he | he | he
      · rw [(preamble_not_cert he).1] at hc; simp at hc
      · subst he; simp [isCertCall, decryptEvent] at hc
      · subst he; simp [isCertCall] at hc
      · rw [(nameEvents_plain (hpre.subset he)).1] at hc; simp at hc
      · rcases he with he | he
        · subst he; simp [isCertCall] at hc
        · simp at he
    | issued k hd hk hf ho hr hcn hall =>
      exact ⟨o, k, rfl, hd, hk, hcn, rfl⟩

/-- A run that got through the option loop and returned 0 made a certificate call. -/
theorem main_success_cert_call (env : Env) (args : List String) (o : Opts)
    (hp : parseArgs env args {} = Parsed.done o) (hs : (main env args).status = 0) :
    ∃ e ∈ (main env args).trace, isCertCall e = true := by
  have hsh := main_shape env args o hp
  generalize main env args = out at hsh hs ⊢
  cases hsh with
  | invalid h => simp at hs
  | keyOpenFails k hd hk hf => simp at hs
  | outOpenFails k f hd hk hf ho hw => simp at hs
  | decryptFails k hd hk hf ho hr => simp at hs
  | nameFails k pre hd hk hf ho hr hpre hwhy => simp at hs
  | issued k hd hk hf ho hr hcn hall =>
    exact ⟨Event.x509_certificate_set_version X509_version.X509_version_v3,
      by simp [assemble], rfl⟩

/-- Filtering the trace of an issuing run by a property of certificate calls
leaves the filtered assembly calls. -/
theorem filter_issued (p : Event → Bool) (hpc : ∀ e, p e = true → isCertCall e = true)
    (env : Env) (o : Opts) (k : String) (n : X509_NAME) (l : List Event) :
    (preamble env o k ++ decryptEvent env o k :: Event.rand_bytes 12 ::
      (nameEvents n ++ Event.time :: l)).filter p = l.filter p := by
  have hnot : ∀ e, isCertCall e = false → p e = false := by
    intro e he
    cases hpe : p e with
    | false => rfl
    | true => rw [hpc e hpe] at he; cases he
  have h1 : (preamble env o k).filter p = [] :=
    filter_eq_nil_of_all (fun e he => hnot e (preamble_not_cert he).1)
  have h2 : (nameEvents n).filter p = [] :=
    filter_eq_nil_of_all (fun e he => hnot e (nameEvents_plain he).1)
  have h3 : p (decryptEvent env o k) = false := hnot _ rfl
  have h4 : p (Event.rand_bytes 12) = false := hnot _ rfl
  have h5 : p Event.time = false := hnot _ rfl
  simp [List.filter_append, List.filter_cons, h1, h2, h3, h4, h5]

theorem isExtension_cert (e : Event) (h : isExtension e = true) : isCertCall e = true := by
  cases e <;> first | rfl | simp [isExtension] at h

theorem isValidity_cert (e : Event) (h : isValidity e = true) : isCertCall e = true := by
  cases e <;> first | rfl | simp [isValidity] at h

theorem isIssuerOrSubject_cert (e : Event) (h : isIssuerOrSubject e = true) :
    isCertCall e = true := by
  cases e <;> first | rfl | simp [isIssuerOrSubject] at h

theorem isUniqueId_cert (e : Event) (h : isUniqueId e = true) : isCertCall e = true := by
  cases e <;> first | rfl | simp [isUniqueId] at h

/-- The name setter calls of a run that got through the option loop are an
initial part of the calls for the attributes given, in the fixed order; a run
that reaches the certificate made them all. -/
theorem main_name_calls (env : Env) (args : List String) (o : Opts)
    (hp : parseArgs env args {} = Parsed.done o) :
    (main env args).trace.filter isNameSet <+: nameEvents (nameOf o) ∧
    ((∃ e ∈ (main env args).trace, isCertCall e = true) →
      (main env args).trace.filter isNameSet = nameEvents (nameOf o)) := by
  have hs := main_shape env args o hp
  generalize main env args = out at hs ⊢
  have hpre : ∀ k, (preamble env o k).filter isNameSet = [] := fun k =>
    filter_eq_nil_of_all (fun e he => (preamble_not_cert he).2.2)
  have hpass : (passEvents env o).filter isNameSet = [] :=
    filter_eq_nil_of_all (fun e he => by
      rcases mem_passEvents he with h | h <;> subst h <;> rfl)
  have hname : ∀ l, l <+: nameEvents (nameOf o) → l.filter isNameSet = l := fun l hl =>
    filter_eq_self_of_all (fun e he => (nameEvents_plain (hl.subset he)).2.2)
  cases hs with
  | invalid h => simp [isNameSet, isCertCall]
  | keyOpenFails k hd hk hf => simp [isNameSet, isCertCall]
  | outOpenFails k f hd hk hf ho hw =>
    refine ⟨by simp [List.filter_append, hpass, isNameSet], ?_⟩
    rintro ⟨e, he, hc⟩
    simp only [List.mem_cons, List.mem_append, List.mem_singleton] at he
    rcases he with he | he | he | he
    · subst he; simp [isCertCall] at hc
    · rw [(passEvents_plain he).1] at hc; simp at hc
    · subst he; simp [isCertCall] at hc
    · rcases he with he | he
      · subst he; simp [isCertCall] at hc
      · simp at he
  | decryptFails k hd hk hf ho hr =>
    refine ⟨by simp [List.filter_append, hpre, isNameSet, decryptEvent], ?_⟩
    rintro ⟨e, he, hc⟩
    simp only [List.mem_cons, List.mem_append, List.mem_singleton] at he
    rcases he with he | he | he
    · rw [(preamble_not_cert he).1] at hc; simp at hc
    · subst he; simp [isCertCall, decryptEvent] at hc
    · rcases he with he | he
      · subst he; simp [isCertCall] at hc
      · simp at he
  | nameFails k pre hd hk hf ho hr hpre2 hwhy =>
    refine ⟨by simpa [List.filter_append, hpre, isNameSet, decryptEvent, hname pre hpre2]
      using hpre2, ?_⟩
    rintro ⟨e, he, hc⟩
    simp only [List.mem_cons, List.mem_append, List.mem_singleton] at he
    rcases he with he | he | he | he | he
    · rw [(preamble_not_cert he).1] at hc; simp at hc
    · subst he; simp [isCertCall, decryptEvent] at hc
    · subst he; simp [isCertCall] at hc
    · rw [(nameEvents_plain (hpre2.subset he)).1] at hc; simp at hc
    · rcases he with he | he
      · subst he; simp [isCertCall] at hc
      · simp at he
  | issued k hd hk hf ho hr hcn hall =>
    have hall2 : (preamble env o k ++ decryptEvent env o k :: Event.rand_bytes 12 ::
        (nameEvents (nameOf o) ++ Event.time ::
          assemble env o (nameOf o) (env.sm2_key (thePass env o) k) (outStream o))).filter
            isNameSet = nameEvents (nameOf o) := by
      simp [List.filter_append, hpre, isNameSet, decryptEvent,
        hname _ (List.prefix_refl _), assemble]
    exact ⟨by rw [hall2], fun _ => hall2⟩

/-! ## The name setter calls of a run that reaches the name -/

theorem attempted_of_all (env : Env) :
    ∀ l : List Event, (∀ e ∈ l, env.ret e = 1) → attempted env l = l := by
  intro l
  induction l with
  | nil => intro _; rfl
  | cons e es ih =>
    intro h
    have he : env.ret e = 1 := h e (List.mem_cons_self _ _)
    simp [attempted, he, ih (fun x hx => h x (List.mem_cons_of_mem _ hx))]

theorem finish_addsCalls (env : Env) (o : Opts) (key : SM2_KEY) (outfp : OutStream) :
    AddsCalls env (finish env o key outfp) (optAttr NameAttr.common_name o.common_name) := by
  intro name tr
  unfold finish
  cases hcn : o.common_name with
  | none => simp [optAttr, nameEvents, attempted, List.filter_append, isNameSet]
  | some cn =>
    by_cases hr : env.ret (Event.x509_name_set NameAttr.common_name cn) = 1
    · simp [optAttr, nameEvents, attempted, List.filter_append, isNameSet, hr, assemble]
    · simp [optAttr, nameEvents, attempted, List.filter_append, isNameSet, hr]

theorem nameStep_addsCalls (env : Env) (attr : NameAttr) (value : Option String)
    (k : X509_NAME → List Event → Outcome) (rest : X509_NAME) (hk : AddsCalls env k rest) :
    AddsCalls env (nameStep env attr value k) (optAttr attr value ++ rest) := by
  intro name tr
  unfold nameStep
  cases value with
  | none => simpa [optAttr] using hk name tr
  | some v =>
    by_cases hr : env.ret (Event.x509_name_set attr v) = 1
    · simp [optAttr, nameEvents, attempted, List.filter_append, isNameSet, hr,
        hk (name ++ [(attr, v)]) (tr ++ [Event.x509_name_set attr v])]
    · simp [optAttr, nameEvents, attempted, List.filter_append, isNameSet, hr]

theorem issue_name_calls (env : Env) (o : Opts) (key : SM2_KEY) (outfp : OutStream)
    (tr : List Event) :
    (issue env o key outfp tr).trace.filter isNameSet =
      tr.filter isNameSet ++ attempted env (nameEvents (nameOf o)) := by
  have h := nameStep_addsCalls env NameAttr.country o.country _ _
    (nameStep_addsCalls env NameAttr.state_or_province o.state _ _
      (nameStep_addsCalls env NameAttr.organization o.org _ _
        (nameStep_addsCalls env NameAttr.organizational_unit o.org_unit _ _
          (finish_addsCalls env o key outfp))))
  have h2 := h [] (tr ++ [Event.rand_bytes 12])
  simpa [issue, nameOf, List.filter_append, isNameSet] using h2

/-- A run that passes the checks, opens its files and loads the key goes on to
build the name. -/
theorem main_reaches_issue (env : Env) (args : List String) (o : Opts) (k : String)
    (hp : parseArgs env args {} = Parsed.done o) (hd : 0 < o.days)
    (hk : o.keyfile = some k) (hf : env.fopen k "r" = true)
    (ho : ∀ f, o.outfile = some f → env.fopen f "wb" = true)
    (hr : env.ret (decryptEvent env o k) = 1) :
    main env args = issue env o (env.sm2_key (thePass env o) k) (outStream o)
      (preamble env o k ++ [decryptEvent env o k]) := by
  have hr2 : env.ret (Event.sm2_enced_private_key_info_from_pem (thePass env o) k) = 1 := hr
  have hd2 : ¬ o.days ≤ 0 := not_le.mpr hd
  have hload : ∀ tr, loadKey env o k (thePass env o) (outStream o) tr =
      issue env o (env.sm2_key (thePass env o) k) (outStream o)
        (tr ++ [decryptEvent env o k]) := by
    intro tr
    simp [loadKey, hr2, decryptEvent]
  have hopen : ∀ tr, openOut env o k (thePass env o) tr =
      loadKey env o k (thePass env o) (outStream o) (tr ++ outEvents o) := by
    intro tr
    unfold openOut
    cases hout : o.outfile with
    | none => simp [outStream, outEvents, hout]
    | some f => simp [outStream, outEvents, hout, ho f hout]
  have hask : askPass env o k [Event.fopen k "r"] =
      openOut env o k (thePass env o) (Event.fopen k "r" :: passEvents env o) := by
    unfold askPass
    cases hpass : o.pass with
    | some p => simp [thePass, passEvents, hpass]
    | none =>
      by_cases hw : env.win32 = true
      · simp [thePass, passEvents, hpass, hw]
      · simp [thePass, passEvents, hpass, hw]
  unfold main
  rw [hp]
  unfold afterParse
  simp only [hd2, if_false, hk, hf, if_true]
  rw [hask, hopen, hload]
  simp [preamble]

/-- The name setter calls of a run that passes the checks, opens its files and
loads the key: those for the attributes given, in the fixed order, up to the
first that does not return 1. -/
theorem main_name_calls_exact (env : Env) (args : List String) (o : Opts) (k : String)
    (hp : parseArgs env args {} = Parsed.done o) (hd : 0 < o.days)
    (hk : o.keyfile = some k) (hf : env.fopen k "r" = true)
    (ho : ∀ f, o.outfile = some f → env.fopen f "wb" = true)
    (hr : env.ret (decryptEvent env o k) = 1) :
    (main env args).trace.filter isNameSet = attempted env (nameEvents (nameOf o)) := by
  rw [main_reaches_issue env args o k hp hd hk hf ho hr, issue_name_calls]
  have hpre : (preamble env o k).filter isNameSet = [] :=
    filter_eq_nil_of_all (fun e he => (preamble_not_cert he).2.2)
  simp [List.filter_append, hpre, isNameSet, decryptEvent]

/-- A run in which every check passes, every file opens, the key loads, the
common name is given and every name setter returns 1 returns 0 and makes a
certificate call. -/
theorem main_issues (env : Env) (args : List String) (o : Opts) (k : String)
    (hp : parseArgs env args {} = Parsed.done o) (hd : 0 < o.days)
    (hk : o.keyfile = some k) (hf : env.fopen k "r" = true)
    (ho : ∀ f, o.outfile = some f → env.fopen f "wb" = true)
    (hr : env.ret (decryptEvent env o k) = 1)
    (hcn : o.common_name ≠ none) (hall : ∀ e ∈ nameEvents (nameOf o), env.ret e = 1) :
    (main env args).status = 0 ∧ ∃ e ∈ (main env args).trace, isCertCall e = true := by
  rw [main_reaches_issue env args o k hp hd hk hf ho hr]
  rcases issue_continues env o (env.sm2_key (thePass env o) k) (outStream o)
      (preamble env o k ++ [decryptEvent env o k]) with
    ⟨pre, _, _, hwhy⟩ | ⟨heq, _, _⟩
  · rcases hwhy with h | ⟨e, he, hne⟩
    · exact absurd h hcn
    · exact absurd (hall e he) hne
  · rw [heq]
    exact ⟨rfl, Event.x509_certificate_set_version X509_version.X509_version_v3,
      by simp [assemble], rfl⟩

/-! ## The option loop on flag/value pairs -/

theorem parseArgs_flatten (env : Env) :
    ∀ (ps : List (String × String)) (o : Opts), (∀ p ∈ ps, p.1 ∈ valueFlags) →
      parseArgs env (flatten ps) o = Parsed.done (ps.foldl (setOpt env) o) := by
  intro ps
  induction ps with
  | nil => intro o _; rfl
  | cons p t ih =>
    intro o h
    have hp : p.1 ∈ valueFlags := h p (List.mem_cons_self _ _)
    have ht : ∀ q ∈ t, q.1 ∈ valueFlags := fun q hq => h q (List.mem_cons_of_mem _ hq)
    obtain ⟨f, v⟩ := p
    simp only [valueFlags, List.mem_cons, List.mem_singleton, List.not_mem_nil, or_false] at hp
    rcases hp with hp | hp | hp | hp | hp | hp | hp | hp | hp <;> subst hp <;>
      simp [flatten, parseArgs, setOpt, ih _ ht]

theorem setOpt_cases (env : Env) (p : String × String) :
    (p.1 = "-CN" ∧ ∀ o, setOpt env o p = { o with common_name := some p.2 }) ∨
    (p.1 = "-O" ∧ ∀ o, setOpt env o p = { o with org := some p.2 }) ∨
    (p.1 = "-OU" ∧ ∀ o, setOpt env o p = { o with org_unit := some p.2 }) ∨
    (p.1 = "-C" ∧ ∀ o, setOpt env o p = { o with country := some p.2 }) ∨
    (p.1 = "-ST" ∧ ∀ o, setOpt env o p = { o with state := some p.2 }) ∨
    (p.1 = "-key" ∧ ∀ o, setOpt env o p = { o with keyfile := some p.2 }) ∨
    (p.1 = "-days" ∧ ∀ o, setOpt env o p = { o with days := env.atoi p.2 }) ∨
    (p.1 = "-pass" ∧ ∀ o, setOpt env o p = { o with pass := some p.2 }) ∨
    (p.1 = "-out" ∧ ∀ o, setOpt env o p = { o with outfile := some p.2 }) ∨
    (p.1 ∉ valueFlags ∧ ∀ o, setOpt env o p = o) := by
  obtain ⟨f, v⟩ := p
  by_cases h1 : f = "-CN"
  · subst h1; exact Or.inl ⟨rfl, fun o => rfl⟩
  by_cases h2 : f = "-O"
  · subst h2; exact Or.inr (Or.inl ⟨rfl, fun o => rfl⟩)
  by_cases h3 : f = "-OU"
  · subst h3; exact Or.inr (Or.inr (Or.inl ⟨rfl, fun o => rfl⟩))
  by_cases h4 : f = "-C"
  · subst h4; exact Or.inr (Or.inr (Or.inr (Or.inl ⟨rfl, fun o => rfl⟩)))
  by_cases h5 : f = "-ST"
  · subst h5; exact Or.inr (Or.inr (Or.inr (Or.inr (Or.inl ⟨rfl, fun o => rfl⟩))))
  by_cases h6 : f = "-key"
  · subst h6; exact Or.inr (Or.inr (Or.inr (Or.inr (Or.inr (Or.inl ⟨rfl, fun o => rfl⟩)))))
  by_cases h7 : f = "-days"
  · subst h7
    exact Or.inr (Or.inr (Or.inr (Or.inr (Or.inr (Or.inr (Or.inl ⟨rfl, fun o => rfl⟩))))))
  by_cases h8 : f = "-pass"
  · subst h8
    exact Or.inr (Or.inr (Or.inr (Or.inr (Or.inr (Or.inr (Or.inr
      (Or.inl ⟨rfl, fun o => rfl⟩)))))))
  by_cases h9 : f = "-out"
  · subst h9
    exact Or.inr (Or.inr (Or.inr (Or.inr (Or.inr (Or.inr (Or.inr (Or.inr
      (Or.inl ⟨rfl, fun o => rfl⟩))))))))
  refine Or.inr (Or.inr (Or.inr (Or.inr (Or.inr (Or.inr (Or.inr (Or.inr
    (Or.inr ⟨?_, fun o => ?_⟩))))))))
  · simp [valueFlags, h1, h2, h3, h4, h5, h6, h7, h8, h9]
  · simp [setOpt, h1, h2, h3, h4, h5, h6, h7, h8, h9]

theorem setOpt_comm (env : Env) (o : Opts) (x y : String × String) (h : x.1 ≠ y.1) :
    setOpt env (setOpt env o x) y = setOpt env (setOpt env o y) x := by
  rcases setOpt_cases env x with ⟨hx, ex⟩ | ⟨hx, ex⟩ | ⟨hx, ex⟩ | ⟨hx, ex⟩ | ⟨hx, ex⟩ |
    ⟨hx, ex⟩ | ⟨hx, ex⟩ | ⟨hx, ex⟩ | ⟨hx, ex⟩ | ⟨hx, ex⟩ <;>
  rcases setOpt_cases env y with ⟨hy, ey⟩ | ⟨hy, ey⟩ | ⟨hy, ey⟩ | ⟨hy, ey⟩ | ⟨hy, ey⟩ |
    ⟨hy, ey⟩ | ⟨hy, ey⟩ | ⟨hy, ey⟩ | ⟨hy, ey⟩ | ⟨hy, ey⟩ <;>
  first
    | exact absurd (hx.trans hy.symm) h
    | simp only [ex, ey]

theorem foldl_setOpt_perm (env : Env) (ps qs : List (String × String)) (o : Opts)
    (hperm : ps.Perm qs) (hnd : (ps.map Prod.fst).Nodup) :
    ps.foldl (setOpt env) o = qs.foldl (setOpt env) o := by
  apply List.Perm.foldl_eq' hperm
  intro x hx y hy z
  by_cases hxy : x = y
  · rw [hxy]
  · exact setOpt_comm env z x y (fun h => hxy (List.inj_on_of_nodup_map hnd hx hy h))

theorem foldl_setOpt_field (env : Env) (get : Opts → Option String) (flag : String)
    (hset : ∀ o p, get (setOpt env o p) = if p.1 = flag then some p.2 else get o) :
    ∀ (ps : List (String × String)) (o : Opts), (ps.map Prod.fst).Nodup →
      get (ps.foldl (setOpt env) o) =
        (match ps.lookup flag with
         | some v => some v
         | none => get o) := by
  intro ps
  induction ps with
  | nil => intro o _; rfl
  | cons p t ih =>
    intro o hnd
    obtain ⟨f, v⟩ := p
    simp only [List.map_cons, List.nodup_cons] at hnd
    rw [List.foldl_cons, ih _ hnd.2, hset, List.lookup_cons]
    by_cases hf : f = flag
    · subst hf
      have hnone : t.lookup f = none := by
        rw [List.lookup_eq_none_iff]
        intro q hq
        have : f ≠ q.1 := fun h => hnd.1 (h ▸ List.mem_map_of_mem Prod.fst hq)
        simpa using this
      simp [hnone]
    · have hb : (flag == f) = false := by simpa using fun h => hf h.symm
      simp [hf, hb]

theorem nameOf_foldl (env : Env) (ps : List (String × String))
    (hnd : (ps.map Prod.fst).Nodup) :
    nameOf (ps.foldl (setOpt env) {}) = supplied ps := by
  have h1 := foldl_setOpt_field env (fun o => o.country) "-C"
    (by
      intro o p
      rcases setOpt_cases env p with ⟨hx, ex⟩ | ⟨hx, ex⟩ | ⟨hx, ex⟩ | ⟨hx, ex⟩ | ⟨hx, ex⟩ |
        ⟨hx, ex⟩ | ⟨hx, ex⟩ | ⟨hx, ex⟩ | ⟨hx, ex⟩ | ⟨hx, ex⟩ <;>
      first
        | (rw [ex]; simp [hx]; done)
        | (rw [ex, if_neg]; intro hc; exact hx (by simp [valueFlags, hc]))) ps {} hnd
  have h2 := foldl_setOpt_field env (fun o => o.state) "-ST"
    (by
      intro o p
      rcases setOpt_cases env p with ⟨hx, ex⟩ | ⟨hx, ex⟩ | ⟨hx, ex⟩ | ⟨hx, ex⟩ | ⟨hx, ex⟩ |
        ⟨hx, ex⟩ | ⟨hx, ex⟩ | ⟨hx, ex⟩ | ⟨hx, ex⟩ | ⟨hx, ex⟩ <;>
      first
        | (rw [ex]; simp [hx]; done)
        | (rw [ex, if_neg]; intro hc; exact hx (by simp [valueFlags, hc]))) ps {} hnd
  have h3 := foldl_setOpt_field env (fun o => o.org) "-O"
    (by
      intro o p
      rcases setOpt_cases env p with ⟨hx, ex⟩ | ⟨hx, ex⟩ | ⟨hx, ex⟩ | ⟨hx, ex⟩ | ⟨hx, ex⟩ |
        ⟨hx, ex⟩ | ⟨hx, ex⟩ | ⟨hx, ex⟩ | ⟨hx, ex⟩ | ⟨hx, ex⟩ <;>
      first
        | (rw [ex]; simp [hx]; done)
        | (rw [ex, if_neg]; intro hc; exact hx (by simp [valueFlags, hc]))) ps {} hnd
  have h4 := foldl_setOpt_field env (fun o => o.org_unit) "-OU"
    (by
      intro o p
      rcases setOpt_cases env p with ⟨hx, ex⟩ | ⟨hx, ex⟩ | ⟨hx, ex⟩ | ⟨hx, ex⟩ | ⟨hx, ex⟩ |
        ⟨hx, ex⟩ | ⟨hx, ex⟩ | ⟨hx, ex⟩ | ⟨hx, ex⟩ | ⟨hx, ex⟩ <;>
      first
        | (rw [ex]; simp [hx]; done)
        | (rw [ex, if_neg]; intro hc; exact hx (by simp [valueFlags, hc]))) ps {} hnd
  have h5 := foldl_setOpt_field env (fun o => o.common_name) "-CN"
    (by
      intro o p
      rcases setOpt_cases env p with ⟨hx, ex⟩ | ⟨hx, ex⟩ | ⟨hx, ex⟩ | ⟨hx, ex⟩ | ⟨hx, ex⟩ |
        ⟨hx, ex⟩ | ⟨hx, ex⟩ | ⟨hx, ex⟩ | ⟨hx, ex⟩ | ⟨hx, ex⟩ <;>
      first
        | (rw [ex]; simp [hx]; done)
        | (rw [ex, if_neg]; intro hc; exact hx (by simp [valueFlags, hc]))) ps {} hnd
  simp only at h1 h2 h3 h4 h5
  unfold nameOf supplied
  rw [h1, h2, h3, h4, h5]
  cases ps.lookup "-C" <;> cases ps.lookup "-ST" <;> cases ps.lookup "-O" <;>
    cases ps.lookup "-OU" <;> cases ps.lookup "-CN" <;> rfl

/-! ## C1: a missing common name -/

/-- C1, the claim as stated fails: on a command line without `-CN` whose key
file opens, the key loader `sm2_enced_private_key_info_from_pem` is called
before the missing common name is noticed. -/
theorem C1_counterexample :
    (∃ o, parseArgs envOk argsNoCN {} = Parsed.done o ∧ o.common_name = none) ∧
    main envOk argsNoCN =
      ⟨-1, [Event.fopen "rootkey.pem" "r",
            Event.sm2_enced_private_key_info_from_pem (some "test123") "rootkey.pem",
            Event.rand_bytes 12, Event.error_print]⟩ ∧
    (∃ e ∈ (main envOk argsNoCN).trace, isDecrypt e = true) := by
  refine ⟨⟨_, rfl, rfl⟩, by decide, by decide⟩

/-- C1, amended: when the option loop ends without a common name, the run
returns -1 and no certificate call (setter, signing, writing) is made; the key
loader is called exactly when `days > 0`, a key file is named and opens, and the
output file, if one is named, opens. -/
theorem C1_missing_common_name (env : Env) (args : List String) (o : Opts)
    (hp : parseArgs env args {} = Parsed.done o) (hcn : o.common_name = none) :
    (main env args).status = -1 ∧
    (∀ e ∈ (main env args).trace, isCertCall e = false) ∧
    ((∃ e ∈ (main env args).trace, isDecrypt e = true) ↔
      (0 < o.days ∧ ∃ k, o.keyfile = some k ∧ env.fopen k "r" = true ∧
        ∀ f, o.outfile = some f → env.fopen f "wb" = true)) := by
  have hs := main_shape env args o hp
  generalize main env args = out at hs ⊢
  cases hs with
  | invalid h =>
    refine ⟨rfl, by simp [isCertCall], ?_⟩
    constructor
    · simp [isDecrypt]
    · rintro ⟨hd, k, hk, _⟩
      rcases h with h | h
      · omega
      · simp [h] at hk
  | keyOpenFails k hd hk hf =>
    refine ⟨rfl, by simp [isCertCall], ?_⟩
    constructor
    · simp [isDecrypt]
    · rintro ⟨_, k2, hk2, hf2, _⟩
      rw [hk] at hk2
      cases hk2
      simp [hf] at hf2
  | outOpenFails k f hd hk hf ho hw =>
    refine ⟨rfl, ?_, ?_⟩
    · intro e he
      simp only [List.mem_cons, List.mem_append, List.mem_singleton] at he
      rcases he with he | he | he | he
      · subst he; rfl
      · exact (passEvents_plain he).1
      · subst he; rfl
      · rcases he with he | he
        · subst he; rfl
        · simp at he
    · constructor
      · rintro ⟨e, he, hdec⟩
        simp only [List.mem_cons, List.mem_append, List.mem_singleton] at he
        rcases he with he | he | he | he
        · subst he; simp [isDecrypt] at hdec
        · rw [(passEvents_plain he).2.1] at hdec; simp at hdec
        · subst he; simp [isDecrypt] at hdec
        · rcases he with he | he
          · subst he; simp [isDecrypt] at hdec
          · simp at he
      · rintro ⟨_, _, _, _, hall⟩
        have := hall f ho
        simp [hw] at this
  | decryptFails k hd hk hf ho hr =>
    refine ⟨rfl, ?_, ?_⟩
    · intro e he
      simp only [List.mem_cons, List.mem_append, List.mem_singleton] at he
      rcases he with he | he | he
      · exact (preamble_not_cert he).1
      · subst he; rfl
      · rcases he with he | he
        · subst he; rfl
        · simp at he
    · constructor
      · intro _
        exact ⟨hd, k, hk, hf, ho⟩
      · intro _
        exact ⟨decryptEvent env o k, by simp, rfl⟩
  | nameFails k pre hd hk hf ho hr hpre hwhy =>
    refine ⟨rfl, ?_, ?_⟩
    · intro e he
      simp only [List.mem_cons, List.mem_append, List.mem_singleton] at he
      rcases he with he | he | he | he | he
      · exact (preamble_not_cert he).1
      · subst he; rfl
      · subst he; rfl
      · exact (nameEvents_plain (hpre.subset he)).1
      · rcases he with he | he
        · subst he; rfl
        · simp at he
    · constructor
      · intro _
        exact ⟨hd, k, hk, hf, ho⟩
      · intro _
        exact ⟨decryptEvent env o k, by simp, rfl⟩
  | issued k hd hk hf ho hr hcn2 hall =>
    exact absurd hcn hcn2

/-- C1, the amended statement on a command line without `-CN`. -/
theorem C1_missing_common_name_witness :
    parseArgs envOk argsNoCN {} =
      Parsed.done { days := 3650, keyfile := some "rootkey.pem", pass := some "test123" } ∧
    (main envOk argsNoCN).status = -1 ∧
    (∀ e ∈ (main envOk argsNoCN).trace, isCertCall e = false) :=
  ⟨rfl,
   (C1_missing_common_name envOk argsNoCN
      { days := 3650, keyfile := some "rootkey.pem", pass := some "test123" } rfl rfl).1,
   (C1_missing_common_name envOk argsNoCN
      { days := 3650, keyfile := some "rootkey.pem", pass := some "test123" } rfl rfl).2.1⟩

/-! ## C2: a day count that is not positive -/

/-- C2, the claim as stated fails: with `-days 0` followed by `-help` the
parsed day count is 0 and the run returns 0. -/
theorem C2_counterexample :
    envOk.atoi "0" ≤ 0 ∧
    main envOk ["-days", "0", "-help"] = ⟨0, [Event.print_usage]⟩ ∧
    (main envOk ["-days", "0", "-help"]).status = 0 := by
  decide

/-- C2, amended: when the option loop does not end with a positive day count,
no `fopen` and no key loader call is made and no certificate call either (no
key file opened, no decryption, no output file opened, nothing written); and
the run returns -1 unless the loop was ended by `-help` or by an illegal
option. -/
theorem C2_nonpositive_days (env : Env) (args : List String)
    (h : ∀ o, parseArgs env args {} = Parsed.done o → o.days ≤ 0) :
    (∀ e ∈ (main env args).trace, touchesFile e = false ∧ isCertCall e = false) ∧
    (parseArgs env args {} ≠ Parsed.help →
      (∀ a, parseArgs env args {} ≠ Parsed.illegal a) → (main env args).status = -1) := by
  unfold main
  cases hp : parseArgs env args {} with
  | help => simp [touchesFile, isCertCall]
  | illegal a => simp [touchesFile, isCertCall]
  | bad => simp [touchesFile, isCertCall]
  | done o =>
    have hd := h o hp
    simp [afterParse, hd, touchesFile, isCertCall]

/-- C2, the amended statement on `-days 0 -key rootkey.pem`. -/
theorem C2_nonpositive_days_witness :
    (∀ o, parseArgs envOk ["-days", "0", "-key", "rootkey.pem"] {} = Parsed.done o → o.days ≤ 0) ∧
    (∀ e ∈ (main envOk ["-days", "0", "-key", "rootkey.pem"]).trace,
      touchesFile e = false ∧ isCertCall e = false) ∧
    (main envOk ["-days", "0", "-key", "rootkey.pem"]).status = -1 :=
  have hyp : ∀ o, parseArgs envOk ["-days", "0", "-key", "rootkey.pem"] {} = Parsed.done o →
      o.days ≤ 0 := by
    intro o ho
    have hparse : parseArgs envOk ["-days", "0", "-key", "rootkey.pem"] {} =
        Parsed.done { days := 0, keyfile := some "rootkey.pem" } := rfl
    rw [hparse] at ho
    cases ho
    decide
  ⟨hyp, (C2_nonpositive_days envOk _ hyp).1,
    (C2_nonpositive_days envOk _ hyp).2 (by decide)
      (by intro a ha; rw [show parseArgs envOk ["-days", "0", "-key", "rootkey.pem"] {} =
        Parsed.done { days := 0, keyfile := some "rootkey.pem" } from rfl] at ha; cases ha)⟩

/-! ## C3: a failed decryption with an output file named -/

/-- C3, the claim as stated fails: with `-out cert.pem` and a key loader that
fails, `fopen("cert.pem", "wb")` has been called (the file is created or
truncated) before the key loader runs. -/
theorem C3_counterexample :
    envBadPass.ret (Event.sm2_enced_private_key_info_from_pem (some "wrong") "rootkey.pem") ≠ 1 ∧
    main envBadPass argsOut =
      ⟨-1, [Event.fopen "rootkey.pem" "r", Event.fopen "cert.pem" "wb",
            Event.sm2_enced_private_key_info_from_pem (some "wrong") "rootkey.pem",
            Event.error_print]⟩ ∧
    Event.fopen "cert.pem" "wb" ∈ (main envBadPass argsOut).trace := by
  decide

/-- C3, amended: on a run with `days > 0`, a key file that opens and an output
file `f` that opens, a key loader that does not return 1 makes the run return
-1 with no certificate call (nothing is written to the output), but
`fopen(f, "wb")` is the call made just before the key loader. -/
theorem C3_decryption_failure (env : Env) (args : List String) (o : Opts) (k f : String)
    (hp : parseArgs env args {} = Parsed.done o) (hd : 0 < o.days)
    (hk : o.keyfile = some k) (hf : env.fopen k "r" = true)
    (ho : o.outfile = some f) (hw : env.fopen f "wb" = true)
    (hfail : env.ret (decryptEvent env o k) ≠ 1) :
    main env args =
      ⟨-1, Event.fopen k "r" :: (passEvents env o ++
        [Event.fopen f "wb", decryptEvent env o k, Event.error_print])⟩ ∧
    (∀ e ∈ (main env args).trace, isCertCall e = false) := by
  have hmain : main env args =
      ⟨-1, Event.fopen k "r" :: (passEvents env o ++
        [Event.fopen f "wb", decryptEvent env o k, Event.error_print])⟩ := by
    have hfail2 : env.ret (Event.sm2_enced_private_key_info_from_pem (thePass env o) k) ≠ 1 :=
      hfail
    unfold main
    rw [hp]
    have hd2 : ¬ o.days ≤ 0 := not_le.mpr hd
    unfold afterParse askPass
    simp only [hd2, if_false, hk, hf, if_true]
    cases hpass : o.pass with
    | some p =>
      have hfail3 : env.ret (Event.sm2_enced_private_key_info_from_pem (some p) k) ≠ 1 := by
        simpa [thePass, hpass] using hfail2
      simp [openOut, ho, hw, loadKey, hfail3, passEvents, hpass, decryptEvent, thePass]
    | none =>
      by_cases hwin : env.win32 = true
      · have hfail3 : env.ret (Event.sm2_enced_private_key_info_from_pem none k) ≠ 1 := by
          simpa [thePass, hpass, hwin] using hfail2
        simp [openOut, ho, hw, loadKey, hfail3, passEvents, hpass, decryptEvent, thePass, hwin]
      · have hfail3 : env.ret (Event.sm2_enced_private_key_info_from_pem env.getpass k) ≠ 1 := by
          simpa [thePass, hpass, hwin] using hfail2
        simp [openOut, ho, hw, loadKey, hfail3, passEvents, hpass, decryptEvent, thePass, hwin]
  refine ⟨hmain, ?_⟩
  rw [hmain]
  intro e he
  simp only [List.mem_cons, List.mem_append, List.mem_singleton] at he
  rcases he with he | he | he | he | he
  · subst he; rfl
  · exact (passEvents_plain he).1
  · subst he; rfl
  · subst he; rfl
  · rcases he with he | he
    · subst he; rfl
    · simp at he

/-- C3, the amended statement on a run with a wrong passphrase and `-out cert.pem`. -/
theorem C3_decryption_failure_witness :
    (main envBadPass argsOut).status = -1 ∧
    (∀ e ∈ (main envBadPass argsOut).trace, isCertCall e = false) :=
  have hrun := C3_decryption_failure envBadPass argsOut
    { common_name := some "Root CA", days := 3650, keyfile := some "rootkey.pem",
      pass := some "wrong", outfile := some "cert.pem" } "rootkey.pem" "cert.pem"
    rfl (by decide) rfl rfl rfl rfl (by decide)
  ⟨by rw [hrun.1], hrun.2⟩

/-! ## C4, C5: return values that are not looked at -/

/-- C4, the code at a failing input: signing returns -1, yet
`x509_certificate_to_pem` is called right after it and the run returns 0. -/
theorem C4_sign_failure_still_writes :
    envSignFails.ret (Event.x509_certificate_sign_sm2 [1, 2, 3]) = -1 ∧
    (main envSignFails argsOut).status = 0 ∧
    Event.x509_certificate_to_pem (OutStream.file "cert.pem") ∈
      (main envSignFails argsOut).trace ∧
    (main envSignFails argsOut).trace.drop 20 =
      [Event.x509_certificate_sign_sm2 [1, 2, 3],
       Event.x509_certificate_to_pem (OutStream.file "cert.pem")] := by
  decide

/-- C5, the code at a failing input: `rand_bytes` and every certificate and
extension setter return -1, yet all of them are called, then signing and
`x509_certificate_to_pem`, and the run returns 0. -/
theorem C5_setter_failure_not_fatal :
    envSettersFail.ret (Event.rand_bytes 12) = -1 ∧
    (∀ e ∈ (main envSettersFail argsOk).trace,
      isCertCall e = true → e ≠ Event.x509_certificate_sign_sm2 [1, 2, 3] →
      e ≠ Event.x509_certificate_to_pem OutStream.stdout → envSettersFail.ret e = -1) ∧
    (main envSettersFail argsOk).status = 0 ∧
    Event.x509_certificate_sign_sm2 [1, 2, 3] ∈ (main envSettersFail argsOk).trace ∧
    Event.x509_certificate_to_pem OutStream.stdout ∈ (main envSettersFail argsOk).trace := by
  decide

/-! ## C6: an illegal option -/

/-- C6, the code at a failing input: an unrecognized flag makes the run write
the diagnostic and the usage text, and return 0. -/
theorem C6_illegal_option_returns_zero (env : Env) :
    main env ["-foo"] = ⟨0, [Event.stderr_illegal_option "-foo", Event.print_usage]⟩ ∧
    (main env ["-foo"]).status = 0 := by
  constructor <;> rfl

/-! ## C7: the extension profile -/

/-- C7: in every run that makes a certificate call, the extension calls are
exactly the five of the profile, in order: basic constraints (critical, CA,
path length 6), extended key usage (critical, the six purposes), subject key
identifier (critical), inhibit-any-policy (critical, 20), policy constraints
(not critical, 5, 5); whatever name attributes were given. -/
theorem C7_extension_profile (env : Env) (args : List String)
    (h : ∃ e ∈ (main env args).trace, isCertCall e = true) :
    (main env args).trace.filter isExtension = extensionProfile := by
  obtain ⟨o, k, _, _, _, _, hmain⟩ := main_cert_call env args h
  rw [hmain]
  simp only []
  rw [filter_issued isExtension isExtension_cert]
  rfl

/-- C7 on a complete command line. -/
theorem C7_extension_profile_witness :
    (∃ e ∈ (main envOk argsOk).trace, isCertCall e = true) ∧
    (main envOk argsOk).trace.filter isExtension = extensionProfile :=
  ⟨by decide, C7_extension_profile envOk argsOk (by decide)⟩

/-! ## C8: the order of the name attributes -/

/-- C8: two argument lists that give the same flag/value pairs, each flag once,
in different orders make the same run, and the option loop ends with the same
variables, whose name attributes are the values given for `-C`, `-ST`, `-O`,
`-OU`, `-CN` in that order.  In every run the name setters called are an
initial part of the setters for these attributes in that order.  In a run that
passes the checks, opens its files and loads the key, the name setters called
are exactly those for the attributes given, in that order, up to the first that
does not return 1: all of them, and nothing else, when every setter returns 1;
and when the common name is among them the run returns 0 with that list set as
issuer and as subject. -/
theorem C8_name_order (env : Env) (ps qs : List (String × String))
    (hperm : ps.Perm qs) (hnd : (ps.map Prod.fst).Nodup)
    (hfl : ∀ p ∈ ps, p.1 ∈ valueFlags) :
    main env (flatten ps) = main env (flatten qs) ∧
    (main env (flatten qs)).trace.filter isNameSet <+: nameEvents (supplied ps) ∧
    ((∃ e ∈ (main env (flatten qs)).trace, isCertCall e = true) →
      (main env (flatten qs)).trace.filter isNameSet = nameEvents (supplied ps) ∧
      (main env (flatten qs)).trace.filter isIssuerOrSubject =
        [Event.x509_certificate_set_issuer (supplied ps),
         Event.x509_certificate_set_subject (supplied ps)]) ∧
    (∃ o, parseArgs env (flatten ps) {} = Parsed.done o ∧
      parseArgs env (flatten qs) {} = Parsed.done o ∧ nameOf o = supplied ps ∧
      ∀ k, 0 < o.days → o.keyfile = some k → env.fopen k "r" = true →
        (∀ f, o.outfile = some f → env.fopen f "wb" = true) →
        env.ret (decryptEvent env o k) = 1 →
        (main env (flatten qs)).trace.filter isNameSet =
          attempted env (nameEvents (supplied ps)) ∧
        ((∀ e ∈ nameEvents (supplied ps), env.ret e = 1) →
          (main env (flatten qs)).trace.filter isNameSet = nameEvents (supplied ps) ∧
          (ps.lookup "-CN" ≠ none →
            (main env (flatten qs)).status = 0 ∧
            (main env (flatten qs)).trace.filter isIssuerOrSubject =
              [Event.x509_certificate_set_issuer (supplied ps),
               Event.x509_certificate_set_subject (supplied ps)]))) := by
  have hfl2 : ∀ p ∈ qs, p.1 ∈ valueFlags := fun p hp => hfl p (hperm.symm.subset hp)
  have h1 := parseArgs_flatten env ps {} hfl
  have h2 := parseArgs_flatten env qs {} hfl2
  rw [← foldl_setOpt_perm env ps qs {} hperm hnd] at h2
  have hname := nameOf_foldl env ps hnd
  have hmain : main env (flatten ps) = main env (flatten qs) := by
    unfold main
    rw [h1, h2]
  have hcalls := main_name_calls env (flatten qs) _ h2
  rw [hname] at hcalls
  have hcert : (∃ e ∈ (main env (flatten qs)).trace, isCertCall e = true) →
      (main env (flatten qs)).trace.filter isIssuerOrSubject =
        [Event.x509_certificate_set_issuer (supplied ps),
         Event.x509_certificate_set_subject (supplied ps)] := by
    intro hc
    obtain ⟨o2, k, hp2, _, _, _, hrun⟩ := main_cert_call env (flatten qs) hc
    rw [h2] at hp2
    cases hp2
    rw [hrun]
    simp only []
    rw [filter_issued isIssuerOrSubject isIssuerOrSubject_cert, hname]
    rfl
  refine ⟨hmain, hcalls.1, fun hc => ⟨hcalls.2 hc, hcert hc⟩, _, h1, h2, hname, ?_⟩
  intro k hd hk hf ho hr
  have hexact := main_name_calls_exact env (flatten qs) _ k h2 hd hk hf ho hr
  rw [hname] at hexact
  refine ⟨hexact, fun hall => ⟨?_, fun hcn => ?_⟩⟩
  · rw [hexact, attempted_of_all env _ hall]
  · have hcn2 : (ps.foldl (setOpt env) {}).common_name ≠ none := by
      intro hnone
      have hsup : supplied ps = nameOf (ps.foldl (setOpt env) {}) := hname.symm
      have hmem : ∃ v, (NameAttr.common_name, v) ∈ supplied ps := by
        cases hl : ps.lookup "-CN" with
        | none => exact absurd hl hcn
        | some v => exact ⟨v, by simp [supplied, optAttr, hl]⟩
      obtain ⟨v, hv⟩ := hmem
      rw [hsup] at hv
      simp only [nameOf, hnone, optAttr, List.mem_append] at hv
      rcases hv with hv | hv | hv | hv | hv
      · cases hc : (ps.foldl (setOpt env) {}).country <;> simp [hc] at hv
      · cases hc : (ps.foldl (setOpt env) {}).state <;> simp [hc] at hv
      · cases hc : (ps.foldl (setOpt env) {}).org <;> simp [hc] at hv
      · cases hc : (ps.foldl (setOpt env) {}).org_unit <;> simp [hc] at hv
      · simp at hv
    have hall2 : ∀ e ∈ nameEvents (nameOf (ps.foldl (setOpt env) {})), env.ret e = 1 := by
      rw [hname]; exact hall
    obtain ⟨hst, hc⟩ := main_issues env (flatten qs) _ k h2 hd hk hf ho hr hcn2 hall2
    exact ⟨hst, hcert hc⟩

/-- C8 on two orders of one command line: the runs are the same, and the name
setters called are those for country, organization and common name, in that
order, with that list set as issuer and as subject. -/
theorem C8_name_order_witness :
    pairsOk.Perm pairsShuffled ∧ (pairsOk.map Prod.fst).Nodup ∧
    (∀ p ∈ pairsOk, p.1 ∈ valueFlags) ∧
    main envOk (flatten pairsOk) = main envOk (flatten pairsShuffled) ∧
    (main envOk (flatten pairsShuffled)).trace.filter isNameSet =
      [Event.x509_name_set NameAttr.country "CN",
       Event.x509_name_set NameAttr.organization "GmSSL",
       Event.x509_name_set NameAttr.common_name "Root CA"] ∧
    (main envOk (flatten pairsShuffled)).status = 0 ∧
    (main envOk (flatten pairsShuffled)).trace.filter isIssuerOrSubject =
      [Event.x509_certificate_set_issuer
         [(NameAttr.country, "CN"), (NameAttr.organization, "GmSSL"),
          (NameAttr.common_name, "Root CA")],
       Event.x509_certificate_set_subject
         [(NameAttr.country, "CN"), (NameAttr.organization, "GmSSL"),
          (NameAttr.common_name, "Root CA")]] := by
  have hperm : pairsOk.Perm pairsShuffled := by decide
  have hnd : (pairsOk.map Prod.fst).Nodup := by decide
  have hfl : ∀ p ∈ pairsOk, p.1 ∈ valueFlags := by decide
  obtain ⟨hmain, _, _, o, h1, _, _, hbuilt⟩ :=
    C8_name_order envOk pairsOk pairsShuffled hperm hnd hfl
  have hparse : parseArgs envOk (flatten pairsOk) {} = Parsed.done optsOk := rfl
  rw [hparse] at h1
  cases h1
  obtain ⟨_, hall⟩ := hbuilt "rootkey.pem" (by decide) rfl rfl
    (by intro f hf; cases hf) (by decide)
  obtain ⟨hcalls, hcn⟩ := hall (by decide)
  obtain ⟨hst, hname⟩ := hcn (by decide)
  exact ⟨hperm, hnd, hfl, hmain, hcalls, hst, hname⟩

/-! ## C9: issuer and subject -/

/-- C9: in every run that gets through the option loop and returns 0, the
issuer and the subject are set, once each and one right after the other, from
the same name, which is the name built from the command-line attributes; and
the issuer and subject unique identifiers are set, once each, from the same
key, the one the key loader produced. -/
theorem C9_issuer_equals_subject (env : Env) (args : List String) (o : Opts)
    (hp : parseArgs env args {} = Parsed.done o) (hs : (main env args).status = 0) :
    (main env args).trace.filter isIssuerOrSubject =
      [Event.x509_certificate_set_issuer (nameOf o),
       Event.x509_certificate_set_subject (nameOf o)] ∧
    (∃ pre post, (main env args).trace =
      pre ++ Event.x509_certificate_set_issuer (nameOf o) ::
        Event.x509_certificate_set_subject (nameOf o) :: post) ∧
    (∃ key, (∃ k, o.keyfile = some k ∧ key = env.sm2_key (thePass env o) k) ∧
      (main env args).trace.filter isUniqueId =
        [Event.x509_certificate_set_issuer_unique_id_from_public_key key,
         Event.x509_certificate_set_subject_unique_id_from_public_key key]) := by
  obtain ⟨o2, k, hp2, _, hk, _, hmain⟩ :=
    main_cert_call env args (main_success_cert_call env args o hp hs)
  rw [hp] at hp2
  cases hp2
  rw [hmain]
  simp only []
  refine ⟨?_, ?_, ?_⟩
  · rw [filter_issued isIssuerOrSubject isIssuerOrSubject_cert]
    rfl
  · refine ⟨preamble env o k ++ decryptEvent env o k :: Event.rand_bytes 12 ::
        (nameEvents (nameOf o) ++ [Event.time,
          Event.x509_certificate_set_version X509_version.X509_version_v3,
          Event.x509_certificate_set_serial_number env.serial 12,
          Event.x509_certificate_set_signature_algor OID.OID_sm2sign_with_sm3]),
        (assemble env o (nameOf o) (env.sm2_key (thePass env o) k) (outStream o)).drop 5, ?_⟩
    simp [assemble]
  · refine ⟨env.sm2_key (thePass env o) k, ⟨k, hk, rfl⟩, ?_⟩
    rw [filter_issued isUniqueId isUniqueId_cert]
    rfl

/-- C9 on a complete command line. -/
theorem C9_issuer_equals_subject_witness :
    (main envOk argsOk).status = 0 ∧
    (main envOk argsOk).trace.filter isIssuerOrSubject =
      [Event.x509_certificate_set_issuer (nameOf optsOk),
       Event.x509_certificate_set_subject (nameOf optsOk)] :=
  ⟨by decide, (C9_issuer_equals_subject envOk argsOk optsOk rfl (by decide)).1⟩

/-! ## C10: the validity window -/

/-- C10: in every run that gets through the option loop and returns 0, the
parsed day count is positive, the validity is set exactly once, from the time
read by `time` and the parsed day count, and the window of the validity setter
runs from that time and lasts exactly the day count times 86400 seconds. -/
theorem C10_validity_window (env : Env) (args : List String) (o : Opts)
    (hp : parseArgs env args {} = Parsed.done o) (hs : (main env args).status = 0) :
    0 < o.days ∧
    Event.time ∈ (main env args).trace ∧
    (main env args).trace.filter isValidity =
      [Event.x509_certificate_set_validity env.time o.days] ∧
    ∃ not_after, x509_validity env.time o.days = some (env.time, not_after) ∧
      not_after - env.time = o.days * 86400 := by
  obtain ⟨o2, k, hp2, hd, _, _, hmain⟩ :=
    main_cert_call env args (main_success_cert_call env args o hp hs)
  rw [hp] at hp2
  cases hp2
  rw [hmain]
  simp only []
  refine ⟨hd, by simp, ?_, env.time + o.days * 86400, ?_, by ring⟩
  · rw [filter_issued isValidity isValidity_cert]
    rfl
  · simp [x509_validity, not_le.mpr hd]

/-- C10 on a complete command line with `-days 3650`. -/
theorem C10_validity_window_witness :
    parseArgs envOk argsOk {} = Parsed.done optsOk ∧
    (main envOk argsOk).status = 0 ∧
    optsOk.days = 3650 ∧
    (main envOk argsOk).trace.filter isValidity =
      [Event.x509_certificate_set_validity 1600000000 3650] :=
  ⟨rfl, by decide, rfl, (C10_validity_window envOk argsOk optsOk rfl (by decide)).2.2.1⟩

end Certgen
